import Mathlib

/-
Verification development for the attendance-report processing pipeline
(`app.py` of the cti repository).

The pipeline is embedded shallowly:
  * a spreadsheet cell is `Cell` (pandas NaN / numeric / text); the grid
    decoded by `pd.read_excel` is a `List (List Cell)` (pandas DataFrames
    are rectangular; a short Lean row is padded with `Cell.na` on access,
    matching the NaN padding pandas performs);
  * exact rationals stand for Python floats (all constants in play are
    decimally representable, so arithmetic agrees);
  * Python `str` values are `String` over `List Char`; `str.lower` is the
    ASCII lowering (all sentinel texts are ASCII), `str.strip` and `\s`
    use the ASCII whitespace class;
  * `float(s)` is modelled by `parseFloat?` on the usual sign/digits/
    decimal-point/exponent grammar (underscored literals and inf/nan
    spellings are not modelled; no input reaching it here uses them);
  * `str(x)` on a numeric cell is modelled by `toString` on the rational
    (no claim depends on the rendering of numeric cells);
  * exceptions become `Except` values (`ValueError` on a missing header,
    `KeyError` on a missing required column).
-/

namespace Cti

/-- ASCII whitespace class: Python's `\s` / `str.strip` on the characters
actually occurring in reports. -/
def pyWs (c : Char) : Bool :=
  c == ' ' || c == '\t' || c == '\n' || c == '\r' || c == '\x0b' || c == '\x0c'

/-- Python `str.strip()`. -/
def stripChars (l : List Char) : List Char :=
  ((l.dropWhile pyWs).reverse.dropWhile pyWs).reverse

def lowerL (l : List Char) : List Char := l.map Char.toLower

def stripS (s : String) : String := ⟨stripChars s.data⟩

def lowerStr (s : String) : String := ⟨lowerL s.data⟩

/-- Does `l` start with `pat`? -/
def startsWithL : List Char → List Char → Bool
  | _, [] => true
  | [], _ :: _ => false
  | c :: cs, d :: ds => c == d && startsWithL cs ds

/-- Python's `pat in l` substring test. -/
def containsSubst : List Char → List Char → Bool
  | [], pat => startsWithL [] pat
  | c :: t, pat => startsWithL (c :: t) pat || containsSubst t pat

/-- Python `s.replace("R$", "")`: left-to-right removal of every
occurrence of the currency marker. -/
def removeRS : List Char → List Char
  | [] => []
  | 'R' :: '$' :: t => removeRS t
  | c :: t => c :: removeRS t

def natOfDigits (l : List Char) : Nat :=
  l.foldl (fun a c => 10 * a + (c.toNat - 48)) 0

/-- Body of the `float(s)` literal grammar after an optional sign:
digits, optional fraction, optional exponent. -/
def parseFloatCore (l : List Char) : Option ℚ :=
  let ip := l.takeWhile Char.isDigit
  let r1 := l.dropWhile Char.isDigit
  let fr :=
    match r1 with
    | '.' :: t => (t.takeWhile Char.isDigit, t.dropWhile Char.isDigit, true)
    | _ => ([], r1, false)
  let fp := fr.1
  let r2 := fr.2.1
  if ip.isEmpty && fp.isEmpty then none
  else
    let mant : ℚ := (natOfDigits ip : ℚ) + (natOfDigits fp : ℚ) / ((10 : ℚ) ^ fp.length)
    match r2 with
    | [] => some mant
    | e :: t =>
      if e == 'e' || e == 'E' then
        let sf :=
          match t with
          | '+' :: u => (false, u)
          | '-' :: u => (true, u)
          | _ => (false, t)
        let ed := sf.2.takeWhile Char.isDigit
        if ed.isEmpty || !(sf.2.dropWhile Char.isDigit).isEmpty then none
        else
          let mag : ℚ := (10 : ℚ) ^ natOfDigits ed
          some (if sf.1 then mant / mag else mant * mag)
      else none

/-- Model of Python `float(s)`: `none` when `float` would raise. -/
def parseFloat? (l : List Char) : Option ℚ :=
  match l with
  | '+' :: t => parseFloatCore t
  | '-' :: t => (parseFloatCore t).map (fun q => -q)
  | _ => parseFloatCore l

/-- A spreadsheet cell as pandas hands it to the code: NaN (empty),
numeric, or text. -/
inductive Cell where
  | na : Cell
  | num : ℚ → Cell
  | str : String → Cell
deriving DecidableEq

/-- `pd.notna`. -/
def notnaB : Cell → Bool
  | .na => false
  | _ => true

/-- Python `str(v)` on a cell (`str(float("nan")) = "nan"`; the rendering
of numeric cells is a modelling choice no claim depends on). -/
def cellStr : Cell → String
  | .na => "nan"
  | .num q => toString q
  | .str s => s

/-- `s.replace(".", "").replace(",", ".")` from `parse_brl_value`. -/
def brlSeparators (l : List Char) : List Char :=
  (l.filter (fun c => c != '.')).map (fun c => if c == ',' then '.' else c)

/-- `parse_brl_value` (app.py:28-47): total conversion of a cell to a
number, absorbing every failure as 0. -/
def parse_brl_value (x : Cell) : ℚ :=
  match x with
  | .na => 0
  | .num q => q
  | .str s =>
    let t := stripChars s.data
    if t.isEmpty then 0
    else
      let t2 := stripChars (removeRS t)
      (parseFloat? (brlSeparators t2)).getD 0

/-- Skip up to and through the first `')'` (the `[^)]*\)` part of the
paren-removal pattern); `none` when no `')'` remains. -/
def dropThroughParen : List Char → Option (List Char)
  | [] => none
  | c :: t => if c == ')' then some t else dropThroughParen t

/-- Match `\s*\([^)]*\)\s*` at the head of `l`; on success return the
remainder after the match.  (For this pattern, backtracking inside
`\s*` or `[^)]*` can never succeed, so the greedy reading is exact.) -/
def matchParenAt (l : List Char) : Option (List Char) :=
  match l.dropWhile pyWs with
  | '(' :: rest => (dropThroughParen rest).map (fun a => a.dropWhile pyWs)
  | _ => none

/-- Fuel-indexed engine scan for `re.sub(r"\s*\([^)]*\)\s*", "", s)`:
at each position either a match is consumed or one character is copied.
Fuel only bounds the recursion; `removeParenGroups` supplies enough fuel
and `removeParenGroupsFuel_congr` shows the bound is irrelevant. -/
def removeParenGroupsFuel : Nat → List Char → List Char
  | _, [] => []
  | 0, l => l
  | f + 1, c :: t =>
    match matchParenAt (c :: t) with
    | some a => removeParenGroupsFuel f a
    | none => c :: removeParenGroupsFuel f t

/-- `re.sub(r"\s*\([^)]*\)\s*", "", s)` (app.py:22). -/
def removeParenGroups (l : List Char) : List Char :=
  removeParenGroupsFuel l.length l

/-- Scan for `re.sub(r"\s+", " ", s)`: the flag records whether the
previous character was whitespace (i.e. whether a run is already open). -/
def collapseWsAux : Bool → List Char → List Char
  | _, [] => []
  | prev, c :: t =>
    if pyWs c then
      if prev then collapseWsAux true t else ' ' :: collapseWsAux true t
    else c :: collapseWsAux false t

/-- `re.sub(r"\s+", " ", s)` (app.py:24): each maximal whitespace run
becomes a single space. -/
def collapseWs (l : List Char) : List Char := collapseWsAux false l

/-- `normalize_convenio` (app.py:16-25). -/
def normalize_convenio : Option String → String
  | none => ""
  | some s => ⟨collapseWs (removeParenGroups (stripChars s.data))⟩

/-- Leftmost occurrence of a removable parenthesized group: splits `l`
into the part before the leftmost match and the remainder after it. -/
def leftmostGroupSplit : List Char → Option (List Char × List Char)
  | [] => none
  | c :: t =>
    match matchParenAt (c :: t) with
    | some a => some ([], a)
    | none => (leftmostGroupSplit t).map (fun p => (c :: p.1, p.2))

/-- Spec reading of the normalizer's middle step: repeatedly delete the
leftmost parenthesized substring together with its parentheses and the
whitespace immediately around it, until none remains (fuel-bounded). -/
def removeAllGroups : Nat → List Char → List Char
  | 0, l => l
  | fuel + 1, l =>
    match leftmostGroupSplit l with
    | none => l
    | some (p, a) => removeAllGroups fuel (p ++ a)

/-- Modelled from the spec: the Key Normalizer contract of §4.2 — null
becomes the empty string; otherwise trim, remove every parenthesized
substring (with its surrounding whitespace), and collapse every
whitespace run to one space. -/
def keyNormalizerSpec : Option String → String
  | none => ""
  | some s =>
    let t := stripChars s.data
    ⟨collapseWs (removeAllGroups t.length t)⟩

/-- The failure taxonomy of the parse entry point: `HeaderNotFound` is the
`ValueError` of app.py:80, `ColumnMissing` the `KeyError` raised when a
required column is absent (app.py:107/109/112). -/
inductive PError where
  | headerNotFound : PError
  | columnMissing : String → PError
deriving DecidableEq

abbrev Grid := List (List Cell)

/-- Header-row test of app.py:59-62: the first cell is a string whose
trimmed lowering is `"atendimento"`, and the non-null cell values joined
with `" | "` and lowered contain one of the two guide-column labels. -/
def isHeaderRow (row : List Cell) : Bool :=
  match row.headD Cell.na with
  | Cell.str s =>
    if lowerStr (stripS s) == "atendimento" then
      let joined := lowerStr (String.intercalate " | " ((row.filter notnaB).map cellStr))
      containsSubst joined.data "nr. guia".data || containsSubst joined.data "nº guia".data
    else false
  | _ => false

/-- First row satisfying `isHeaderRow` (the loop with `break` of
app.py:57-64). -/
def headerSearch : Grid → Option Nat
  | [] => none
  | r :: rs => if isHeaderRow r then some 0 else (headerSearch rs).map (· + 1)

/-- First string cell of a row containing `"total r$"` (lowered), the
inner loop of app.py:69-75. -/
def rowTotalCell? (row : List Cell) : Option String :=
  row.findSome? fun c =>
    match c with
    | Cell.str s => if containsSubst (lowerL s.data) "total r$".data then some s else none
    | _ => none

/-- First row owning a total cell, paired with that cell's text
(app.py:67-77). -/
def totalSearch : Grid → Option (Nat × String)
  | [] => none
  | r :: rs =>
    match rowTotalCell? r with
    | some s => some (0, s)
    | none => (totalSearch rs).map (fun p => (p.1 + 1, p.2))

/-- Try `re.search(r"total\s*r\$\s*(.*)$", v, re.IGNORECASE)` at the head
of `l`: `total`, optional whitespace, `r$`, optional whitespace, then the
captured remainder.  (The backtracking of `\s*` cannot succeed for this
pattern; `(.*)$` is the rest of the cell — cells carry no embedded
newlines.) -/
def matchTotalAt (l : List Char) : Option (List Char) :=
  if startsWithL (lowerL l) "total".data then
    match (l.drop 5).dropWhile pyWs with
    | c :: '$' :: rest => if c.toLower == 'r' then some (rest.dropWhile pyWs) else none
    | _ => none
  else none

/-- Leftmost match of the total pattern inside the cell text: the
captured group, in original case. -/
def totalCapture? : List Char → Option (List Char)
  | [] => none
  | c :: t => (matchTotalAt (c :: t)).orElse (fun _ => totalCapture? t)

/-- `find_header_and_total_row` (app.py:50-82). -/
def find_header_and_total_row (raw : Grid) :
    Except PError (Nat × Option Nat × Option ℚ) :=
  let tot := totalSearch raw
  let tidx := tot.map (·.1)
  let tval := tot.bind fun p =>
    (totalCapture? p.2.data).map fun g => parse_brl_value (Cell.str ⟨g⟩)
  match headerSearch raw with
  | none => Except.error PError.headerNotFound
  | some h => Except.ok (h, tidx, tval)

/-- The `col_map` dict comprehension of app.py:97: position and stripped
text of every non-null, non-blank header cell, in order. -/
def headerColsAux : Nat → List Cell → List (Nat × String)
  | _, [] => []
  | j, c :: t =>
    if notnaB c && (stripS (cellStr c) != "") then
      (j, stripS (cellStr c)) :: headerColsAux (j + 1) t
    else headerColsAux (j + 1) t

def headerCols (hrow : List Cell) : List (Nat × String) := headerColsAux 0 hrow

def hasCol (cols : List (Nat × String)) (name : String) : Bool :=
  (cols.find? (fun p => p.2 == name)).isSome

/-- Value of the column `name` in a body row (`df[name]` after the
rename of app.py:104; absent positions are NaN-padded by pandas). -/
def colCell (cols : List (Nat × String)) (name : String) (r : List Cell) : Cell :=
  match cols.find? (fun p => p.2 == name) with
  | some p => r.getD p.1 Cell.na
  | none => Cell.na

/-- One extracted row after the normalizations of app.py:107-109. -/
structure ARec where
  guia : Cell
  operadora : String
  convenioKey : String
  valor : ℚ
deriving DecidableEq

def mkRec (cols : List (Nat × String)) (r : List Cell) : ARec :=
  let op := stripS (cellStr (colCell cols "Operadora" r))
  { guia := colCell cols "Nr. Guia" r
    operadora := op
    convenioKey := normalize_convenio (some op)
    valor := parse_brl_value (colCell cols "Valor Total" r) }

/-- `raw.iloc[start:end]` with `start = header_idx + 1` and
`end = total_idx` (or the grid length), app.py:100-103. -/
def bodyRows (raw : Grid) (h : Nat) (t : Option Nat) : Grid :=
  (raw.take (t.getD raw.length)).drop (h + 1)

/-- The sliced and column-projected table of app.py:96-104, before the
per-column normalizations: retained column names plus the projected body
rows. -/
def extractedTable (raw : Grid) : Except PError (List String × Grid) :=
  match find_header_and_total_row raw with
  | Except.error e => Except.error e
  | Except.ok (h, t, _) =>
    let cols := headerCols (raw.getD h [])
    Except.ok (cols.map (·.2),
      (bodyRows raw h t).map (fun r => cols.map (fun p => r.getD p.1 Cell.na)))

/-- `parse_atendimentos_xls` (app.py:85-114) on the decoded grid (the
spreadsheet container decoding of app.py:91-92 is the external grid
source of spec §6).  Required-column access raises in source order
Operadora (line 107), Valor Total (line 109), Nr. Guia (line 112); the
final filter drops rows with NaN guide and amount exactly 0. -/
def parse_atendimentos_xls (raw : Grid) : Except PError (List ARec × Option ℚ) :=
  match find_header_and_total_row raw with
  | Except.error e => Except.error e
  | Except.ok (h, t, rtot) =>
    let cols := headerCols (raw.getD h [])
    if hasCol cols "Operadora" then
      if hasCol cols "Valor Total" then
        if hasCol cols "Nr. Guia" then
          Except.ok
            (((bodyRows raw h t).map (mkRec cols)).filter
              (fun rc => !(!notnaB rc.guia && decide (rc.valor = 0))), rtot)
        else Except.error (PError.columnMissing "Nr. Guia")
      else Except.error (PError.columnMissing "Valor Total")
    else Except.error (PError.columnMissing "Operadora")

/-- The channel enumeration `FATURAMENTO_OPCOES` (app.py:12). -/
def FATURAMENTO_OPCOES : List String := ["", "AMHPDF", "HOSPITAL", "DIRETO"]

/-- Insertion-ordered model of the Python mapping dict.  Lookup takes the
first binding, as a dict with unique keys does. -/
def lookupMap (m : List (String × String)) (k : String) : Option String :=
  (m.find? (fun p => p.1 == k)).map (·.2)

/-- `df.groupby(["Nr. Guia", "ConvenioKey"])` drops rows whose group key
is NaN (pandas `dropna=True` default): only records with a non-null
guide survive into the aggregate. -/
def keptRecs (recs : List ARec) : List ARec :=
  recs.filter (fun r => notnaB r.guia)

/-- Total-order model of the pandas group-key sort: numbers before
strings, numbers by value, strings by code point (exact for the
homogeneous key columns reports produce). -/
def cellLeB (a b : Cell) : Bool :=
  match a, b with
  | Cell.na, _ => true
  | _, Cell.na => false
  | Cell.num p, Cell.num q => decide (p ≤ q)
  | Cell.num _, Cell.str _ => true
  | Cell.str _, Cell.num _ => false
  | Cell.str s, Cell.str t => decide (s ≤ t)

def keyLeB (a b : Cell × String) : Bool :=
  if a.1 = b.1 then decide (a.2 ≤ b.2) else cellLeB a.1 b.1

def insSorted {α : Type} (le : α → α → Bool) (x : α) : List α → List α
  | [] => [x]
  | y :: ys => if le x y then x :: y :: ys else y :: insSorted le x ys

def sortByB {α : Type} (le : α → α → Bool) (l : List α) : List α :=
  l.foldr (insSorted le) []

/-- The distinct (guide, insurer-key) pairs of the aggregate, sorted as
`groupby(sort=True)` emits them. -/
def guideKeys (recs : List ARec) : List (Cell × String) :=
  sortByB keyLeB ((keptRecs recs).map (fun r => (r.guia, r.convenioKey))).dedup

/-- Structural summation over ℚ (the pandas `sum` over a column; exact
rational addition is associative/commutative, so the fold order is
immaterial). -/
def qsum : List ℚ → ℚ
  | [] => 0
  | x :: t => x + qsum t

/-- Group sum of `"Valor Total"` for one (guide, key) pair (app.py:300). -/
def groupTotal (recs : List ARec) (k : Cell × String) : ℚ :=
  qsum (((keptRecs recs).filter
      (fun r => decide (r.guia = k.1) && decide (r.convenioKey = k.2))).map
    (fun r => r.valor))

/-- One row of `df_guia` after app.py:299-303: pair, summed total, and
the mapped channel (`map(mapping).fillna("")`). -/
structure GuideRow where
  guia : Cell
  conv : String
  total : ℚ
  fat : String
deriving DecidableEq

def df_guia (recs : List ARec) (m : List (String × String)) : List GuideRow :=
  (guideKeys recs).map fun k =>
    { guia := k.1
      conv := k.2
      total := groupTotal recs k
      fat := (lookupMap m k.2).getD "" }

/-- `calc_total` (app.py:305). -/
def calc_total (recs : List ARec) (m : List (String × String)) : ℚ :=
  qsum ((df_guia recs m).map (fun r => r.total))

/-- One bucket of `resumo` (app.py:306-311): sum of `df_guia` totals
whose channel equals `ch` (the `""` bucket is `"OUTROS"`). -/
def resumoOf (recs : List ARec) (m : List (String × String)) (ch : String) : ℚ :=
  qsum (((df_guia recs m).filter (fun r => r.fat == ch)).map (fun r => r.total))

/-- `convenios_arquivo` (app.py:267): sorted distinct insurer keys of the
parsed records. -/
def convenios_arquivo (recs : List ARec) : List String :=
  sortByB (fun a b => decide (a ≤ b)) (recs.map (fun r => r.convenioKey)).dedup

/-- `novos` (app.py:268): keys of the file that are not keys of the
mapping. -/
def novos (recs : List ARec) (m : List (String × String)) : List String :=
  (convenios_arquivo recs).filter (fun c => (lookupMap m c).isNone)

/-- The `cleaned` dict of `save_convenios_mapping` (app.py:144): falsy
keys dropped, values outside the enumeration replaced by `""`; both the
local and the GitHub write serialize exactly this dict. -/
def cleanedMapping (m : List (String × String)) : List (String × String) :=
  (m.filter (fun p => p.1 != "")).map
    (fun p => (p.1, if p.2 ∈ FATURAMENTO_OPCOES then p.2 else ""))

/-! Concrete fixtures used by the witness and counterexample theorems. -/

/-- A grid with no recognizable header row. -/
def gridC1 : Grid := [[Cell.str "foo"], [Cell.num 1]]

/-- A grid whose header row sits at index 1 (first cell needs trimming
and lower-casing). -/
def gridC1b : Grid :=
  [[Cell.num 3], [Cell.str " Atendimento ", Cell.str "Nr. Guia"]]

/-- The grid of spec §8: header at row 3, `"Total R$ 500,00"` at row 10. -/
def gridC5 : Grid :=
  [[Cell.na], [Cell.na], [Cell.na],
   [Cell.str "Atendimento", Cell.str "Nr. Guia"],
   [Cell.na], [Cell.na], [Cell.na], [Cell.na], [Cell.na], [Cell.na],
   [Cell.str "Total R$ 500,00"]]

/-- A header plus three body rows: a null-guide row with amount 5, a
guided row with amount 0, and a fully empty row. -/
def gridC6 : Grid :=
  [[Cell.str "Atendimento", Cell.str "Operadora", Cell.str "Valor Total", Cell.str "Nr. Guia"],
   [Cell.na, Cell.str "X", Cell.str "5,00", Cell.na],
   [Cell.na, Cell.str "Y", Cell.str "0,00", Cell.str "G1"],
   [Cell.na, Cell.na, Cell.na, Cell.na]]

/-- A located header lacking the required `"Operadora"` column. -/
def gridC7 : Grid := [[Cell.str "Atendimento", Cell.str "Nr. Guia"]]

/-- Grid for the extraction-shape witness: header at row 0, two body
rows, one blank header cell. -/
def gridC9 : Grid :=
  [[Cell.str "Atendimento", Cell.str " ", Cell.str "Nr. Guia"],
   [Cell.num 1, Cell.str "x", Cell.str "g1"],
   [Cell.num 2, Cell.str "y", Cell.str "g2"]]

/-- The three records of the end-to-end example of spec §8. -/
def recsC3 : List ARec :=
  [⟨Cell.num 1, "A", "A", 100⟩, ⟨Cell.num 1, "A", "A", 50⟩, ⟨Cell.num 2, "B", "B", 200⟩]

def mapC3 : List (String × String) := [("A", "DIRETO")]

/-- One record with a null guide and a nonzero amount (such records
survive the extractor's noise filter). -/
def recsC3x : List ARec := [⟨Cell.na, "A", "A", 5⟩]

/-- One record whose insurer key is mapped to the empty string. -/
def recsC4 : List ARec := [⟨Cell.num 1, "A", "A", 100⟩]

def mapC4 : List (String × String) := [("A", "")]

def mapC10 : List (String × String) := [("", "DIRETO"), ("k", "JUNK"), ("a", "AMHPDF")]

/-- The records `parse_atendimentos_xls` extracts from `gridC6`. -/
def recsC6 : List ARec :=
  [⟨Cell.na, "X", "X", 5⟩, ⟨Cell.str "G1", "Y", "Y", 0⟩]

/-! Helper lemmas. -/

theorem dropWhile_length_le {α : Type} (p : α → Bool) (l : List α) :
    (l.dropWhile p).length ≤ l.length := by
  induction l with
  | nil => simp
  | cons c t ih =>
    by_cases h : p c <;> simp [List.dropWhile, h] <;> omega

theorem dropThroughParen_length {l r : List Char} (h : dropThroughParen l = some r) :
    r.length + 1 ≤ l.length := by
  induction l with
  | nil => simp [dropThroughParen] at h
  | cons c t ih =>
    by_cases hc : c == ')'
    · simp [dropThroughParen, hc] at h
      simp [← h]
    · simp [dropThroughParen, hc] at h
      have := ih h
      simp
      omega

theorem matchParenAt_length {l a : List Char} (h : matchParenAt l = some a) :
    a.length + 2 ≤ l.length := by
  unfold matchParenAt at h
  split at h
  · rename_i rest hd
    rcases Option.map_eq_some'.mp h with ⟨a0, ha0, rfl⟩
    have h1 := dropThroughParen_length ha0
    have h2 : (a0.dropWhile pyWs).length ≤ a0.length := dropWhile_length_le _ _
    have h3 : ('(' :: rest).length ≤ l.length := by
      rw [← hd]; exact dropWhile_length_le _ _
    simp at h3
    omega
  · exact absurd h (by simp)

theorem headerSearch_eq_some {raw : Grid} {h : Nat} (hh : headerSearch raw = some h) :
    h < raw.length ∧ isHeaderRow (raw.getD h []) = true ∧
      ∀ j, j < h → isHeaderRow (raw.getD j []) = false := by
  induction raw generalizing h with
  | nil => simp [headerSearch] at hh
  | cons r rs ih =>
    by_cases hr : isHeaderRow r
    · simp [headerSearch, hr] at hh
      subst hh
      refine ⟨by simp, by simp [List.getD, hr], ?_⟩
      intro j hj
      omega
    · simp [headerSearch, hr] at hh
      obtain ⟨h0, hh0, rfl⟩ := hh
      obtain ⟨hlt, hhead, hmin⟩ := ih hh0
      refine ⟨by simp; omega, by simpa [List.getD] using hhead, ?_⟩
      intro j hj
      cases j with
      | zero => simpa [List.getD] using eq_false_of_ne_true hr
      | succ j0 =>
        have := hmin j0 (by omega)
        simpa [List.getD] using this

theorem headerSearch_none_iff (raw : Grid) :
    headerSearch raw = none ↔ ∀ row ∈ raw, isHeaderRow row = false := by
  induction raw with
  | nil => simp [headerSearch]
  | cons r rs ih =>
    by_cases hr : isHeaderRow r
    · simp [headerSearch, hr]
    · simp [headerSearch, hr, Option.map_eq_none', ih, eq_false_of_ne_true hr]

theorem totalSearch_eq_some {raw : Grid} {i : Nat} {s : String}
    (hh : totalSearch raw = some (i, s)) :
    i < raw.length ∧ rowTotalCell? (raw.getD i []) = some s ∧
      ∀ j, j < i → rowTotalCell? (raw.getD j []) = none := by
  induction raw generalizing i s with
  | nil => simp [totalSearch] at hh
  | cons r rs ih =>
    cases hr : rowTotalCell? r with
    | some s0 =>
      simp [totalSearch, hr] at hh
      obtain ⟨rfl, rfl⟩ := hh
      refine ⟨by simp, by simpa [List.getD] using hr, ?_⟩
      intro j hj
      omega
    | none =>
      simp [totalSearch, hr] at hh
      obtain ⟨i0, hp, rfl⟩ := hh
      obtain ⟨hlt, hcell, hmin⟩ := ih hp
      refine ⟨by simp; omega, by simpa [List.getD] using hcell, ?_⟩
      intro j hj
      cases j with
      | zero => simpa [List.getD] using hr
      | succ j0 =>
        have := hmin j0 (by omega)
        simpa [List.getD] using this

theorem totalSearch_none_iff (raw : Grid) :
    totalSearch raw = none ↔ ∀ row ∈ raw, rowTotalCell? row = none := by
  induction raw with
  | nil => simp [totalSearch]
  | cons r rs ih =>
    cases hr : rowTotalCell? r with
    | some s0 => simp [totalSearch, hr]
    | none => simp [totalSearch, hr, Option.map_eq_none', ih]

theorem find_eq_ok {raw : Grid} {h : Nat} {t : Option Nat} {v : Option ℚ}
    (hk : find_header_and_total_row raw = Except.ok (h, t, v)) :
    headerSearch raw = some h ∧ t = (totalSearch raw).map (fun p => p.1) ∧
      v = (totalSearch raw).bind fun p =>
        (totalCapture? p.2.data).map fun g => parse_brl_value (Cell.str ⟨g⟩) := by
  unfold find_header_and_total_row at hk
  cases hs : headerSearch raw with
  | none => rw [hs] at hk; exact absurd hk (by simp)
  | some h0 =>
    rw [hs] at hk
    simp at hk
    obtain ⟨rfl, rfl, rfl⟩ := hk
    exact ⟨rfl, rfl, rfl⟩

theorem find_error_iff (raw : Grid) :
    find_header_and_total_row raw = Except.error PError.headerNotFound ↔
      headerSearch raw = none := by
  unfold find_header_and_total_row
  cases headerSearch raw <;> simp

/-! Claim theorems. -/

/-- C1: for every raw grid, the returned `headerRowIndex` is the first
row, scanning top to bottom, satisfying the header predicate (first cell
trimmed and lower-cased equals `"atendimento"` and the non-null cell
values, joined and lower-cased, containing a guide-column label variant);
the locator fails with the payload-free `HeaderNotFound` condition if and
only if no row of the grid qualifies. -/
theorem C1_header_detection (raw : Grid) :
    (∀ h t v, find_header_and_total_row raw = Except.ok (h, t, v) →
        h < raw.length ∧ isHeaderRow (raw.getD h []) = true ∧
          ∀ j, j < h → isHeaderRow (raw.getD j []) = false) ∧
    (find_header_and_total_row raw = Except.error PError.headerNotFound ↔
        ∀ row ∈ raw, isHeaderRow row = false) := by
  constructor
  · intro h t v hk
    exact headerSearch_eq_some (find_eq_ok hk).1
  · rw [find_error_iff, headerSearch_none_iff]

theorem C1_header_detection_witness :
    find_header_and_total_row gridC1 = Except.error PError.headerNotFound ∧
    isHeaderRow (gridC1b.getD 1 []) = true ∧
    isHeaderRow (gridC1b.getD 0 []) = false := by
  refine ⟨(C1_header_detection gridC1).2.mpr (by decide), ?_, ?_⟩
  · exact (((C1_header_detection gridC1b).1 1 none none rfl).2.1)
  · exact (((C1_header_detection gridC1b).1 1 none none rfl).2.2 0 (by omega))

/-- C5: total-row detection is a full top-to-bottom pass independent of
the header position: on success of the locator, `totalRowIndex` is absent
together with `totalValue` exactly when no row has a cell containing the
total sentinel (a normal, non-error outcome), and otherwise it is the
first such row, with `totalValue` obtained by passing the captured
trailing substring through the Currency Parser (absent if the pattern
does not match). -/
theorem C5_total_detection (raw : Grid) :
    ∀ h t v, find_header_and_total_row raw = Except.ok (h, t, v) →
      ((t = none ∧ v = none) ↔ ∀ row ∈ raw, rowTotalCell? row = none) ∧
      (∀ i, t = some i →
        i < raw.length ∧ (∀ j, j < i → rowTotalCell? (raw.getD j []) = none) ∧
        ∃ s, rowTotalCell? (raw.getD i []) = some s ∧
          v = (totalCapture? s.data).map fun g => parse_brl_value (Cell.str ⟨g⟩)) := by
  intro h t v hk
  obtain ⟨hs, ht, hv⟩ := find_eq_ok hk
  constructor
  · constructor
    · rintro ⟨ht0, _⟩
      rw [ht0] at ht
      have hnone : totalSearch raw = none := by
        cases htot : totalSearch raw with
        | none => rfl
        | some p => rw [htot] at ht; exact absurd ht.symm (by simp)
      exact (totalSearch_none_iff raw).mp hnone
    · intro hall
      have hnone : totalSearch raw = none := (totalSearch_none_iff raw).mpr hall
      rw [hnone] at ht hv
      exact ⟨ht, hv⟩
  · intro i hti
    rw [hti] at ht
    cases htot : totalSearch raw with
    | none => rw [htot] at ht; exact absurd ht (by simp)
    | some p =>
      obtain ⟨i0, s0⟩ := p
      rw [htot] at ht hv
      simp at ht
      subst ht
      obtain ⟨hlt, hcell, hmin⟩ := totalSearch_eq_some htot
      exact ⟨hlt, hmin, s0, hcell, by simpa using hv⟩

theorem notnaB_eq_true_iff (c : Cell) : notnaB c = true ↔ c ≠ Cell.na := by
  cases c <;> simp [notnaB]

theorem keepB_iff (g : Cell) (q : ℚ) :
    (!(!notnaB g && decide (q = 0))) = true ↔ ¬ (g = Cell.na ∧ q = 0) := by
  cases g <;> simp [notnaB]

theorem parse_ok_elim {raw : Grid} {h : Nat} {t : Option Nat} {v : Option ℚ}
    {recs : List ARec} {rtot : Option ℚ}
    (hk : find_header_and_total_row raw = Except.ok (h, t, v))
    (hp : parse_atendimentos_xls raw = Except.ok (recs, rtot)) :
    rtot = v ∧
    recs = ((bodyRows raw h t).map (mkRec (headerCols (raw.getD h [])))).filter
      (fun rc => !(!notnaB rc.guia && decide (rc.valor = 0))) ∧
    hasCol (headerCols (raw.getD h [])) "Operadora" = true ∧
    hasCol (headerCols (raw.getD h [])) "Valor Total" = true ∧
    hasCol (headerCols (raw.getD h [])) "Nr. Guia" = true := by
  unfold parse_atendimentos_xls at hp
  simp only [hk] at hp
  by_cases h1 : hasCol (headerCols (raw.getD h [])) "Operadora"
  · by_cases h2 : hasCol (headerCols (raw.getD h [])) "Valor Total"
    · by_cases h3 : hasCol (headerCols (raw.getD h [])) "Nr. Guia"
      · rw [if_pos h1, if_pos h2, if_pos h3] at hp
        injection hp with hpair
        injection hpair with hrecs hrtot
        exact ⟨hrtot.symm, hrecs.symm, h1, h2, h3⟩
      · rw [if_pos h1, if_pos h2, if_neg h3] at hp
        exact Except.noConfusion hp
    · rw [if_pos h1, if_neg h2] at hp
      exact Except.noConfusion hp
  · rw [if_neg h1] at hp
    exact Except.noConfusion hp

set_option maxRecDepth 4000 in
theorem C5_total_detection_witness :
    find_header_and_total_row gridC5 = Except.ok (3, some 10, some (500 : ℚ)) ∧
    (∀ j, j < 10 → rowTotalCell? (gridC5.getD j []) = none) ∧
    (rowTotalCell? (gridC5.getD 10 [])).isSome = true := by
  have hfind : find_header_and_total_row gridC5 =
      Except.ok (3, some 10, some (500 : ℚ)) := by
    with_unfolding_all rfl
  have happ := (C5_total_detection gridC5 3 (some 10) (some 500) hfind).2 10 rfl
  obtain ⟨_, hmin, s, hcell, _⟩ := happ
  exact ⟨hfind, hmin, by rw [hcell]; rfl⟩

set_option maxRecDepth 4000 in
/-- C2: the Currency Parser is a total function (it is a Lean function
into ℚ, so it can never raise): null/missing/NaN input yields 0,
already-numeric input is returned as-is, and the text pipeline produces
the documented values — `"1.234,56"` ↦ 1234.56, `"R$ 10,00"` ↦ 10.0,
`""` ↦ 0, `"abc"` ↦ 0. -/
theorem C2_currency_conversion :
    parse_brl_value Cell.na = 0 ∧
    (∀ q : ℚ, parse_brl_value (Cell.num q) = q) ∧
    parse_brl_value (Cell.str "1.234,56") = 1234.56 ∧
    parse_brl_value (Cell.str "R$ 10,00") = 10 ∧
    parse_brl_value (Cell.str "") = 0 ∧
    parse_brl_value (Cell.str "abc") = 0 := by
  refine ⟨rfl, fun q => rfl, ?_, ?_, rfl, ?_⟩
  · with_unfolding_all rfl
  · with_unfolding_all rfl
  · with_unfolding_all rfl

/-- C6: a body row's record is dropped from the output if and only if
its `"Nr. Guia"` cell is null and its computed amount is exactly 0; in
particular a null-guide record with amount 5 and a guided record with
amount 0 are both retained (see the witness). -/
theorem C6_noise_filter (raw : Grid) (h : Nat) (t : Option Nat) (v : Option ℚ)
    (recs : List ARec) (rtot : Option ℚ)
    (hk : find_header_and_total_row raw = Except.ok (h, t, v))
    (hp : parse_atendimentos_xls raw = Except.ok (recs, rtot)) :
    ∀ rc ∈ (bodyRows raw h t).map (mkRec (headerCols (raw.getD h []))),
      (rc ∈ recs ↔ ¬ (rc.guia = Cell.na ∧ rc.valor = 0)) := by
  obtain ⟨-, hrecs, -⟩ := parse_ok_elim hk hp
  intro rc hrc
  subst hrecs
  rw [List.mem_filter]
  constructor
  · rintro ⟨-, hcond⟩
    exact (keepB_iff rc.guia rc.valor).mp hcond
  · intro hnot
    exact ⟨hrc, (keepB_iff rc.guia rc.valor).mpr hnot⟩

set_option maxRecDepth 4000 in
theorem C6_noise_filter_witness :
    parse_atendimentos_xls gridC6 = Except.ok (recsC6, none) ∧
    ((⟨Cell.na, "X", "X", 5⟩ : ARec) ∈ recsC6 ∧
     (⟨Cell.str "G1", "Y", "Y", 0⟩ : ARec) ∈ recsC6) ∧
    (⟨Cell.na, "nan", "nan", 0⟩ : ARec) ∉ recsC6 := by
  have hfind : find_header_and_total_row gridC6 = Except.ok (0, none, none) := by
    with_unfolding_all rfl
  have hp : parse_atendimentos_xls gridC6 = Except.ok (recsC6, none) := by
    with_unfolding_all rfl
  have happ := C6_noise_filter gridC6 0 none none recsC6 none hfind hp
  refine ⟨hp, ⟨?_, ?_⟩, ?_⟩
  · exact (happ _ (by with_unfolding_all decide)).mpr (by with_unfolding_all decide)
  · exact (happ _ (by with_unfolding_all decide)).mpr (by with_unfolding_all decide)
  · intro hmem
    exact (happ _ (by with_unfolding_all decide)).mp hmem (by with_unfolding_all decide)

/-- C7: when the located header row lacks one of the required columns
`"Operadora"`, `"Valor Total"` or `"Nr. Guia"`, the parse aborts with a
`ColumnMissing` condition naming a required column, and produces no
record output. -/
theorem C7_missing_column (raw : Grid) (h : Nat) (t : Option Nat) (v : Option ℚ)
    (hk : find_header_and_total_row raw = Except.ok (h, t, v))
    (hmiss : hasCol (headerCols (raw.getD h [])) "Operadora" = false ∨
             hasCol (headerCols (raw.getD h [])) "Valor Total" = false ∨
             hasCol (headerCols (raw.getD h [])) "Nr. Guia" = false) :
    ∃ c, parse_atendimentos_xls raw = Except.error (PError.columnMissing c) ∧
      (c = "Operadora" ∨ c = "Valor Total" ∨ c = "Nr. Guia") := by
  unfold parse_atendimentos_xls
  simp only [hk]
  by_cases h1 : hasCol (headerCols (raw.getD h [])) "Operadora"
  · by_cases h2 : hasCol (headerCols (raw.getD h [])) "Valor Total"
    · by_cases h3 : hasCol (headerCols (raw.getD h [])) "Nr. Guia"
      · rcases hmiss with hm | hm | hm <;> simp_all
      · exact ⟨"Nr. Guia", by rw [if_pos h1, if_pos h2, if_neg h3], by simp⟩
    · exact ⟨"Valor Total", by rw [if_pos h1, if_neg h2], by simp⟩
  · exact ⟨"Operadora", by rw [if_neg h1], by simp⟩

theorem C7_missing_column_witness :
    ∃ c, parse_atendimentos_xls gridC7 = Except.error (PError.columnMissing c) ∧
      (c = "Operadora" ∨ c = "Valor Total" ∨ c = "Nr. Guia") := by
  exact C7_missing_column gridC7 0 none none rfl (Or.inl (by decide))

theorem headerColsAux_map_snd (j : Nat) (l : List Cell) :
    (headerColsAux j l).map (fun p => p.2) =
      (l.filter (fun c => notnaB c && (stripS (cellStr c) != ""))).map
        (fun c => stripS (cellStr c)) := by
  induction l generalizing j with
  | nil => rfl
  | cons c t ih =>
    by_cases hc : notnaB c && (stripS (cellStr c) != "")
    · simp [headerColsAux, hc, List.filter_cons, ih]
    · simp [headerColsAux, hc, List.filter_cons, ih (j + 1)]

theorem bodyRows_length (raw : Grid) (h : Nat) (t : Option Nat) :
    (bodyRows raw h t).length = min (t.getD raw.length) raw.length - (h + 1) := by
  unfold bodyRows
  simp

theorem bodyRows_getD (raw : Grid) (h : Nat) (t : Option Nat) (k : Nat)
    (hlt : k < (bodyRows raw h t).length) :
    (bodyRows raw h t).getD k [] = raw.getD (h + 1 + k) [] := by
  have hlen : k < min (t.getD raw.length) raw.length - (h + 1) := by
    rw [← bodyRows_length raw h t]; exact hlt
  have hb : h + 1 + k < raw.length := by omega
  rw [List.getD_eq_getElem _ _ hlt, List.getD_eq_getElem _ _ hb]
  simp only [bodyRows, List.getElem_drop, List.getElem_take]

/-- C9: on success, the extracted table's columns are exactly the header
row's non-null, non-blank cells (stripped), in their left-to-right
order, and its rows are exactly the grid rows from just after the header
up to the total row (when one exists) or the end of the grid, each
projected to the retained column positions. -/
theorem C9_extraction_shape (raw : Grid) (h : Nat) (t : Option Nat) (v : Option ℚ)
    (names : List String) (rows : Grid)
    (hk : find_header_and_total_row raw = Except.ok (h, t, v))
    (he : extractedTable raw = Except.ok (names, rows)) :
    names = ((raw.getD h []).filter
        (fun c => notnaB c && (stripS (cellStr c) != ""))).map
        (fun c => stripS (cellStr c)) ∧
    rows.length = min (t.getD raw.length) raw.length - (h + 1) ∧
    ∀ k, k < rows.length →
      rows.getD k [] =
        (headerCols (raw.getD h [])).map
          (fun p => (raw.getD (h + 1 + k) []).getD p.1 Cell.na) := by
  unfold extractedTable at he
  simp only [hk] at he
  injection he with hpair
  injection hpair with hnames hrows
  subst hnames
  subst hrows
  refine ⟨(headerColsAux_map_snd 0 _), by simp [bodyRows_length], ?_⟩
  intro k hklt
  have hkb : k < (bodyRows raw h t).length := by simpa using hklt
  have hbody := bodyRows_getD raw h t k hkb
  rw [List.getD_eq_getElem _ _ hklt, List.getElem_map,
    ← List.getD_eq_getElem _ _ hkb, hbody]

set_option maxRecDepth 4000 in
theorem C9_extraction_shape_witness :
    extractedTable gridC9 =
      Except.ok (["Atendimento", "Nr. Guia"],
        [[Cell.num 1, Cell.str "g1"], [Cell.num 2, Cell.str "g2"]]) ∧
    (["Atendimento", "Nr. Guia"] : List String) =
      ((gridC9.getD 0 []).filter
          (fun c => notnaB c && (stripS (cellStr c) != ""))).map
        (fun c => stripS (cellStr c)) ∧
    ([[Cell.num 1, Cell.str "g1"], [Cell.num 2, Cell.str "g2"]] : Grid).length = 2 := by
  have he : extractedTable gridC9 =
      Except.ok (["Atendimento", "Nr. Guia"],
        [[Cell.num 1, Cell.str "g1"], [Cell.num 2, Cell.str "g2"]]) := by
    with_unfolding_all rfl
  have happ := C9_extraction_shape gridC9 0 none none _ _ (by with_unfolding_all rfl) he
  exact ⟨he, happ.1, by decide⟩

/-- C10: every entry of the persisted mapping has a non-empty key and a
value in the channel enumeration; an entry of the input survives (with
its value coerced into the enumeration) exactly when its key is
non-empty. -/
theorem C10_saved_mapping_invariant (m : List (String × String)) :
    (∀ p ∈ cleanedMapping m, p.1 ≠ "" ∧ p.2 ∈ FATURAMENTO_OPCOES) ∧
    (∀ k vv, (k, vv) ∈ m → k ≠ "" →
      (k, if vv ∈ FATURAMENTO_OPCOES then vv else "") ∈ cleanedMapping m) := by
  constructor
  · intro p hp
    unfold cleanedMapping at hp
    rcases List.mem_map.mp hp with ⟨q, hq, rfl⟩
    have hk := (List.mem_filter.mp hq).2
    constructor
    · simpa using hk
    · by_cases hv : q.2 ∈ FATURAMENTO_OPCOES
      · show (if q.2 ∈ FATURAMENTO_OPCOES then q.2 else "") ∈ FATURAMENTO_OPCOES
        rw [if_pos hv]; exact hv
      · show (if q.2 ∈ FATURAMENTO_OPCOES then q.2 else "") ∈ FATURAMENTO_OPCOES
        rw [if_neg hv]; decide
  · intro k vv hm hk
    unfold cleanedMapping
    exact List.mem_map.mpr ⟨(k, vv), List.mem_filter.mpr ⟨hm, by simpa using hk⟩, rfl⟩

theorem dtp_mem {l r : List Char} (h : dropThroughParen l = some r) : ')' ∈ l := by
  induction l with
  | nil => simp [dropThroughParen] at h
  | cons c t ih =>
    by_cases hc : c == ')'
    · simp only [beq_iff_eq] at hc
      simp [hc]
    · simp [dropThroughParen, hc] at h
      exact List.mem_cons_of_mem c (ih h)

theorem dtp_of_mem {l : List Char} (h : ')' ∈ l) : ∃ r, dropThroughParen l = some r := by
  induction l with
  | nil => simp at h
  | cons c t ih =>
    by_cases hc : c == ')'
    · exact ⟨t, by simp [dropThroughParen, hc]⟩
    · have hct : ')' ∈ t := by
        rcases List.mem_cons.mp h with hh | hh
        · exact absurd hh.symm (by simpa using hc)
        · exact hh
      rcases ih hct with ⟨r, hr⟩
      exact ⟨r, by simp [dropThroughParen, hc, hr]⟩

theorem mem_of_mem_dropWhile {α : Type} {p : α → Bool} {x : α} {l : List α}
    (h : x ∈ l.dropWhile p) : x ∈ l := by
  induction l with
  | nil => simpa using h
  | cons c t ih =>
    rw [List.dropWhile_cons] at h
    by_cases hc : p c
    · simp only [hc, if_pos] at h
      exact List.mem_cons_of_mem c (ih h)
    · simp only [hc] at h
      simpa using h

theorem dropWhile_head_not {α : Type} {p : α → Bool} {y : α} {ys l : List α}
    (h : l.dropWhile p = y :: ys) : p y = false ∧ y ∈ l := by
  induction l with
  | nil => simp at h
  | cons c t ih =>
    rw [List.dropWhile_cons] at h
    by_cases hc : p c
    · simp only [hc, if_pos] at h
      obtain ⟨hy, hmem⟩ := ih h
      exact ⟨hy, List.mem_cons_of_mem c hmem⟩
    · simp only [hc] at h
      simp at h
      obtain ⟨rfl, -⟩ := h
      exact ⟨by simpa using hc, by simp⟩

theorem dropWhile_append_left {α : Type} {p : α → Bool} {l a : List α}
    (h : ∃ y ∈ l, p y = false) :
    (l ++ a).dropWhile p = l.dropWhile p ++ a := by
  induction l with
  | nil => simp at h
  | cons c t ih =>
    by_cases hc : p c
    · have hnext : ∃ y ∈ t, p y = false := by
        rcases h with ⟨y, hy, hyp⟩
        rcases List.mem_cons.mp hy with rfl | hyt
        · exact absurd hc (by simp [hyp])
        · exact ⟨y, hyt, hyp⟩
      simp [List.dropWhile_cons, hc, ih hnext]
    · simp [List.dropWhile_cons, hc]

theorem matchParenAt_some_elim {l a : List Char} (h : matchParenAt l = some a) :
    ∃ rest a0, l.dropWhile pyWs = '(' :: rest ∧ dropThroughParen rest = some a0 ∧
      a = a0.dropWhile pyWs := by
  unfold matchParenAt at h
  split at h
  · rename_i rest hd
    rcases Option.map_eq_some'.mp h with ⟨a0, ha0, rfl⟩
    exact ⟨rest, a0, hd, ha0, rfl⟩
  · exact absurd h (by simp)

theorem matchParenAt_paren (t : List Char) :
    matchParenAt ('(' :: t) = (dropThroughParen t).map (fun a => a.dropWhile pyWs) := by
  have h : pyWs '(' = false := rfl
  simp [matchParenAt, List.dropWhile_cons, h]

theorem matchParenAt_ws {c : Char} (t : List Char) (hc : pyWs c = true) :
    matchParenAt (c :: t) = matchParenAt t := by
  unfold matchParenAt
  rw [List.dropWhile_cons]
  simp [hc]

theorem split_nil_elim {t a : List Char}
    (h : leftmostGroupSplit t = some ([], a)) : matchParenAt t = some a := by
  cases t with
  | nil => simp [leftmostGroupSplit] at h
  | cons c u =>
    unfold leftmostGroupSplit at h
    cases hm : matchParenAt (c :: u) with
    | some a0 =>
      rw [hm] at h
      simp at h
      rw [h]
    | none =>
      rw [hm] at h
      simp at h

theorem rgf_nil (f : Nat) : removeParenGroupsFuel f [] = [] := by
  cases f <;> rfl

theorem rag_nil (g : Nat) : removeAllGroups g [] = [] := by
  cases g with
  | zero => rfl
  | succ g0 =>
    show (match leftmostGroupSplit [] with
      | none => ([] : List Char)
      | some (p, a) => removeAllGroups g0 (p ++ a)) = []
    rfl

theorem split_some_elim : ∀ {l p a : List Char},
    leftmostGroupSplit l = some (p, a) →
    ('(' ∉ p) ∧ (∀ x, p.getLast? = some x → pyWs x = false) ∧
      p.length + a.length + 2 ≤ l.length ∧ ')' ∈ l := by
  intro l
  induction l with
  | nil => intro p a h; simp [leftmostGroupSplit] at h
  | cons c t ih =>
    intro p a h
    unfold leftmostGroupSplit at h
    cases hm : matchParenAt (c :: t) with
    | some a0 =>
      rw [hm] at h
      simp at h
      obtain ⟨rfl, rfl⟩ := h
      refine ⟨by simp, by simp, ?_, ?_⟩
      · have := matchParenAt_length hm
        simpa using this
      · rcases matchParenAt_some_elim hm with ⟨rest, a1, hd, hdtp, -⟩
        have hmem : ')' ∈ '(' :: rest := List.mem_cons_of_mem _ (dtp_mem hdtp)
        rw [← hd] at hmem
        exact mem_of_mem_dropWhile hmem
    | none =>
      rw [hm] at h
      rcases Option.map_eq_some'.mp h with ⟨⟨p0, a0⟩, hp0, heq⟩
      cases heq
      obtain ⟨ihp, ihlast, ihlen, ihclose⟩ := ih hp0
      refine ⟨?_, ?_, by simp at ihlen ⊢; omega, List.mem_cons_of_mem c ihclose⟩
      · intro hmem
        rcases List.mem_cons.mp hmem with hc | hc
        · rcases dtp_of_mem ihclose with ⟨r, hr⟩
          rw [← hc, matchParenAt_paren t, hr] at hm
          simp at hm
        · exact ihp hc
      · intro x hx
        cases p0 with
        | nil =>
          have hxc : c = x := by simpa using hx
          subst hxc
          by_contra hcws
          have hws : pyWs c = true := by revert hcws; cases pyWs c <;> simp
          have hmt : matchParenAt t = some a0 := split_nil_elim hp0
          rw [matchParenAt_ws t hws, hmt] at hm
          exact absurd hm (by simp)
        | cons d p1 =>
          rw [List.getLast?_cons_cons] at hx
          exact ihlast x hx

theorem rgf_of_split_none : ∀ {l : List Char}, leftmostGroupSplit l = none →
    ∀ f, removeParenGroupsFuel f l = l := by
  intro l
  induction l with
  | nil => intro _ f; exact rgf_nil f
  | cons c t ih =>
    intro h f
    have h1 : matchParenAt (c :: t) = none := by
      unfold leftmostGroupSplit at h
      cases hm : matchParenAt (c :: t) with
      | some a => rw [hm] at h; simp at h
      | none => rfl
    have h2 : leftmostGroupSplit t = none := by
      unfold leftmostGroupSplit at h
      rw [h1] at h
      simpa using h
    cases f with
    | zero => rfl
    | succ g =>
      show (match matchParenAt (c :: t) with
        | some a => removeParenGroupsFuel g a
        | none => c :: removeParenGroupsFuel g t) = c :: t
      rw [h1]
      show c :: removeParenGroupsFuel g t = c :: t
      rw [ih h2 g]

theorem rgf_split : ∀ {l p a : List Char}, leftmostGroupSplit l = some (p, a) →
    ∀ f, l.length ≤ f →
      removeParenGroupsFuel f l =
        p ++ removeParenGroupsFuel (f - p.length - 1) a := by
  intro l
  induction l with
  | nil => intro p a h; simp [leftmostGroupSplit] at h
  | cons c t ih =>
    intro p a h f hf
    obtain ⟨g, rfl⟩ : ∃ g, f = g + 1 := ⟨f - 1, by simp at hf; omega⟩
    unfold leftmostGroupSplit at h
    cases hm : matchParenAt (c :: t) with
    | some a0 =>
      rw [hm] at h
      simp at h
      obtain ⟨rfl, rfl⟩ := h
      have hstep : removeParenGroupsFuel (g + 1) (c :: t) =
          removeParenGroupsFuel g a0 := by
        show (match matchParenAt (c :: t) with
          | some a1 => removeParenGroupsFuel g a1
          | none => c :: removeParenGroupsFuel g t) = _
        rw [hm]
      rw [hstep]
      simp
    | none =>
      rw [hm] at h
      rcases Option.map_eq_some'.mp h with ⟨⟨p0, a0⟩, hp0, heq⟩
      cases heq
      have ht : t.length ≤ g := by simp at hf; omega
      have IH := ih hp0 g ht
      have hstep : removeParenGroupsFuel (g + 1) (c :: t) =
          c :: removeParenGroupsFuel g t := by
        show (match matchParenAt (c :: t) with
          | some a1 => removeParenGroupsFuel g a1
          | none => c :: removeParenGroupsFuel g t) = _
        rw [hm]
      rw [hstep, IH]
      have harith : g + 1 - (c :: p0).length - 1 = g - p0.length - 1 := by
        simp only [List.length_cons]
        omega
      rw [harith]
      simp

theorem rgf_fuel_congr : ∀ (n : Nat) (l : List Char) (f g : Nat),
    l.length ≤ n → l.length ≤ f → l.length ≤ g →
    removeParenGroupsFuel f l = removeParenGroupsFuel g l := by
  intro n
  induction n with
  | zero =>
    intro l f g hn _ _
    have : l = [] := List.length_eq_zero.mp (Nat.le_zero.mp hn)
    subst this
    rw [rgf_nil, rgf_nil]
  | succ n ih =>
    intro l f g hn hf hg
    cases hsplit : leftmostGroupSplit l with
    | none => rw [rgf_of_split_none hsplit f, rgf_of_split_none hsplit g]
    | some pa =>
      obtain ⟨p, a⟩ := pa
      obtain ⟨-, -, hlen, -⟩ := split_some_elim hsplit
      rw [rgf_split hsplit f hf, rgf_split hsplit g hg]
      have := ih a (f - p.length - 1) (g - p.length - 1)
        (by omega) (by omega) (by omega)
      rw [this]

theorem matchParenAt_none_of_head {l : List Char} {y : Char} {ys : List Char}
    (hd : l.dropWhile pyWs = y :: ys) (hy : y ≠ '(') : matchParenAt l = none := by
  unfold matchParenAt
  rw [hd]
  split
  · rename_i rest heq
    injection heq with h1 h2
    exact absurd h1 hy
  · rfl

theorem rgf_prepend : ∀ (p : List Char), ('(' ∉ p) →
    (∀ x, p.getLast? = some x → pyWs x = false) →
    ∀ (a : List Char) (f : Nat),
      removeParenGroupsFuel (p.length + f) (p ++ a) =
        p ++ removeParenGroupsFuel f a := by
  intro p
  induction p with
  | nil => intro _ _ a f; simp
  | cons c p0 ih =>
    intro hnp hlast a f
    have hex : ∃ y ∈ (c :: p0), pyWs y = false := by
      cases hl : (c :: p0).getLast? with
      | none => simp at hl
      | some x =>
        have hxmem : x ∈ c :: p0 := List.mem_of_mem_getLast? (by simp [hl])
        exact ⟨x, hxmem, hlast x hl⟩
    have hdw : ((c :: p0) ++ a).dropWhile pyWs =
        (c :: p0).dropWhile pyWs ++ a := dropWhile_append_left hex
    have hne : (c :: p0).dropWhile pyWs ≠ [] := by
      intro hnil
      rw [List.dropWhile_eq_nil_iff] at hnil
      rcases hex with ⟨y, hy, hyp⟩
      rw [hnil y hy] at hyp
      exact absurd hyp (by simp)
    obtain ⟨y, ys, hys⟩ : ∃ y ys, (c :: p0).dropWhile pyWs = y :: ys := by
      cases hc : (c :: p0).dropWhile pyWs with
      | nil => exact absurd hc hne
      | cons y ys => exact ⟨y, ys, rfl⟩
    obtain ⟨hyws, hymem⟩ := dropWhile_head_not hys
    have hyne : y ≠ '(' := fun hcontr => hnp (hcontr ▸ hymem)
    have hd2 : ((c :: p0) ++ a).dropWhile pyWs = y :: (ys ++ a) := by
      rw [hdw, hys]
      rfl
    have hmnone : matchParenAt ((c :: p0) ++ a) = none :=
      matchParenAt_none_of_head hd2 hyne
    have hstep : removeParenGroupsFuel (p0.length + f + 1) (c :: (p0 ++ a)) =
        c :: removeParenGroupsFuel (p0.length + f) (p0 ++ a) := by
      show (match matchParenAt (c :: (p0 ++ a)) with
        | some a1 => removeParenGroupsFuel (p0.length + f) a1
        | none => c :: removeParenGroupsFuel (p0.length + f) (p0 ++ a)) = _
      rw [show (c :: (p0 ++ a)) = ((c :: p0) ++ a) from rfl, hmnone]
    have hlenarith : (c :: p0).length + f = p0.length + f + 1 := by
      simp only [List.length_cons]
      omega
    rw [show ((c :: p0) ++ a) = (c :: (p0 ++ a)) from rfl, hlenarith, hstep]
    have hp0 : '(' ∉ p0 := fun hc => hnp (List.mem_cons_of_mem c hc)
    have hlast0 : ∀ x, p0.getLast? = some x → pyWs x = false := by
      intro x hx
      cases p0 with
      | nil => simp at hx
      | cons d p1 =>
        exact hlast x (by rw [List.getLast?_cons_cons]; exact hx)
    rw [ih hp0 hlast0 a f]
    rfl

theorem rgf_eq_rag : ∀ (n : Nat) (l : List Char) (f g : Nat),
    l.length ≤ n → l.length ≤ f → l.length ≤ g →
    removeParenGroupsFuel f l = removeAllGroups g l := by
  intro n
  induction n with
  | zero =>
    intro l f g hn _ _
    have : l = [] := List.length_eq_zero.mp (Nat.le_zero.mp hn)
    subst this
    rw [rgf_nil, rag_nil]
  | succ n ih =>
    intro l f g hn hf hg
    cases hsplit : leftmostGroupSplit l with
    | none =>
      rw [rgf_of_split_none hsplit f]
      cases g with
      | zero => rfl
      | succ g0 =>
        show l = (match leftmostGroupSplit l with
          | none => l
          | some (p, a) => removeAllGroups g0 (p ++ a))
        rw [hsplit]
    | some pa =>
      obtain ⟨p, a⟩ := pa
      obtain ⟨hnp, hlast, hlen, -⟩ := split_some_elim hsplit
      obtain ⟨g0, rfl⟩ : ∃ g0, g = g0 + 1 := ⟨g - 1, by omega⟩
      have hragstep : removeAllGroups (g0 + 1) l = removeAllGroups g0 (p ++ a) := by
        show (match leftmostGroupSplit l with
          | none => l
          | some (q, b) => removeAllGroups g0 (q ++ b)) = _
        rw [hsplit]
      have hIH : removeParenGroupsFuel (p.length + a.length) (p ++ a) =
          removeAllGroups g0 (p ++ a) := by
        apply ih (p ++ a) (p.length + a.length) g0 <;> simp <;> omega
      have hpre := rgf_prepend p hnp hlast a a.length
      have hfc : removeParenGroupsFuel (f - p.length - 1) a =
          removeParenGroupsFuel a.length a :=
        rgf_fuel_congr a.length a _ _ le_rfl (by omega) le_rfl
      rw [rgf_split hsplit f hf, hragstep, ← hIH, hpre, hfc]

theorem insSorted_perm {α : Type} (le : α → α → Bool) (x : α) (l : List α) :
    (insSorted le x l).Perm (x :: l) := by
  induction l with
  | nil => exact List.Perm.refl _
  | cons y ys ih =>
    by_cases h : le x y
    · simp [insSorted, h]
    · simp only [insSorted, h, if_neg]
      exact (ih.cons y).trans (List.Perm.swap x y ys)

theorem sortByB_perm {α : Type} (le : α → α → Bool) (l : List α) :
    (sortByB le l).Perm l := by
  induction l with
  | nil => exact List.Perm.refl _
  | cons x t ih => exact (insSorted_perm le x (sortByB le t)).trans (ih.cons x)

theorem mem_guideKeys {recs : List ARec} {k : Cell × String} :
    k ∈ guideKeys recs ↔
      k ∈ (keptRecs recs).map (fun r => (r.guia, r.convenioKey)) := by
  unfold guideKeys
  rw [(sortByB_perm keyLeB _).mem_iff, List.mem_dedup]

theorem guideKeys_nodup (recs : List ARec) : (guideKeys recs).Nodup := by
  unfold guideKeys
  exact (sortByB_perm keyLeB _).nodup_iff.mpr (List.nodup_dedup _)

theorem df_guia_map_pair (recs : List ARec) (m : List (String × String)) :
    (df_guia recs m).map (fun row => (row.guia, row.conv)) = guideKeys recs := by
  unfold df_guia
  rw [List.map_map]
  have he : ((fun row : GuideRow => (row.guia, row.conv)) ∘ fun k : Cell × String =>
      ({ guia := k.1, conv := k.2, total := groupTotal recs k,
         fat := (lookupMap m k.2).getD "" } : GuideRow)) = fun k => k := by
    funext k
    rfl
  rw [he]
  simp

theorem keptRecs_filter_of_ne_na (recs : List ARec) (g : Cell) (k : String)
    (hg : g ≠ Cell.na) :
    (keptRecs recs).filter
        (fun r => decide (r.guia = g) && decide (r.convenioKey = k)) =
      recs.filter (fun r => decide (r.guia = g) && decide (r.convenioKey = k)) := by
  unfold keptRecs
  rw [List.filter_filter]
  apply List.filter_congr
  intro r _
  by_cases hrg : r.guia = g
  · have : notnaB r.guia = true := (notnaB_eq_true_iff _).mpr (by rw [hrg]; exact hg)
    simp [this]
  · simp [hrg]

theorem qsum_buckets (l : List GuideRow)
    (hf : ∀ row ∈ l, row.fat = "AMHPDF" ∨ row.fat = "HOSPITAL" ∨
        row.fat = "DIRETO" ∨ row.fat = "") :
    qsum (l.map (fun r => r.total)) =
      qsum ((l.filter (fun r => r.fat == "AMHPDF")).map (fun r => r.total)) +
      qsum ((l.filter (fun r => r.fat == "HOSPITAL")).map (fun r => r.total)) +
      qsum ((l.filter (fun r => r.fat == "DIRETO")).map (fun r => r.total)) +
      qsum ((l.filter (fun r => r.fat == "")).map (fun r => r.total)) := by
  induction l with
  | nil => simp [qsum]
  | cons r t ih =>
    have hr := hf r (by simp)
    have ht : ∀ row ∈ t, row.fat = "AMHPDF" ∨ row.fat = "HOSPITAL" ∨
        row.fat = "DIRETO" ∨ row.fat = "" := fun row hrow => hf row (by simp [hrow])
    have IH := ih ht
    rcases hr with h | h | h | h <;>
      simp only [List.map_cons, qsum, List.filter_cons, h] <;>
      simp <;> rw [IH] <;> ring

theorem lookup_fat_mem (m : List (String × String))
    (hm : ∀ p ∈ m, p.2 ∈ FATURAMENTO_OPCOES) (k : String) :
    (lookupMap m k).getD "" = "AMHPDF" ∨ (lookupMap m k).getD "" = "HOSPITAL" ∨
      (lookupMap m k).getD "" = "DIRETO" ∨ (lookupMap m k).getD "" = "" := by
  cases hl : lookupMap m k with
  | none => simp
  | some vv =>
    unfold lookupMap at hl
    rcases Option.map_eq_some'.mp hl with ⟨p, hp, rfl⟩
    have := hm p (List.mem_of_find?_eq_some hp)
    simp [FATURAMENTO_OPCOES] at this
    rcases this with h | h | h | h <;> simp [h]

/-- C3 (amended): aggregation considers only records with a non-null
guide id (pandas `groupby` drops NaN keys): over those, there is exactly
one `GuideRow` per distinct (guide, insurerKey) pair, its total is the
sum of the matching record amounts, and — for mappings whose values lie
in the channel enumeration, as the spec's data model requires — the
computed total equals the sum of the four channel buckets including the
unassigned one. -/
theorem C3_aggregation_amended (recs : List ARec) (m : List (String × String))
    (hm : ∀ p ∈ m, p.2 ∈ FATURAMENTO_OPCOES) :
    ((df_guia recs m).map (fun row => (row.guia, row.conv))).Nodup ∧
    (∀ g k, (g, k) ∈ (df_guia recs m).map (fun row => (row.guia, row.conv)) ↔
        (g ≠ Cell.na ∧ ∃ r ∈ recs, r.guia = g ∧ r.convenioKey = k)) ∧
    (∀ row ∈ df_guia recs m,
        row.guia ≠ Cell.na ∧
        row.total = qsum ((recs.filter (fun r =>
            decide (r.guia = row.guia) && decide (r.convenioKey = row.conv))).map
          (fun r => r.valor))) ∧
    calc_total recs m =
      resumoOf recs m "AMHPDF" + resumoOf recs m "HOSPITAL" +
        resumoOf recs m "DIRETO" + resumoOf recs m "" := by
  have hpair := df_guia_map_pair recs m
  have hmemkey : ∀ g k, ((g, k) ∈ guideKeys recs ↔
      (g ≠ Cell.na ∧ ∃ r ∈ recs, r.guia = g ∧ r.convenioKey = k)) := by
    intro g k
    rw [mem_guideKeys]
    constructor
    · intro hmem
      rcases List.mem_map.mp hmem with ⟨r, hr, heq⟩
      rcases List.mem_filter.mp hr with ⟨hrrecs, hkeep⟩
      cases heq
      exact ⟨(notnaB_eq_true_iff _).mp hkeep, r, hrrecs, rfl, rfl⟩
    · rintro ⟨hg, r, hr, hg2, hk2⟩
      refine List.mem_map.mpr ⟨r, List.mem_filter.mpr ⟨hr, ?_⟩, by rw [hg2, hk2]⟩
      exact (notnaB_eq_true_iff _).mpr (by rw [hg2]; exact hg)
  refine ⟨?_, ?_, ?_, ?_⟩
  · rw [hpair]
    exact guideKeys_nodup recs
  · intro g k
    rw [hpair]
    exact hmemkey g k
  · intro row hrow
    rcases List.mem_map.mp hrow with ⟨k0, hk0, hrow0⟩
    have hk0' : k0 ∈ guideKeys recs := hk0
    have hgk : (k0.1, k0.2) ∈ guideKeys recs := by
      have : (k0.1, k0.2) = k0 := rfl
      rw [this]
      exact hk0'
    have hne : k0.1 ≠ Cell.na := ((hmemkey k0.1 k0.2).mp hgk).1
    constructor
    · rw [← hrow0]
      exact hne
    · rw [← hrow0]
      show groupTotal recs k0 = _
      unfold groupTotal
      rw [keptRecs_filter_of_ne_na recs k0.1 k0.2 hne]
  · unfold calc_total resumoOf
    apply qsum_buckets
    intro row hrow
    rcases List.mem_map.mp hrow with ⟨k0, _, hrow0⟩
    rw [← hrow0]
    show (lookupMap m k0.2).getD "" = "AMHPDF" ∨ _ ∨ _ ∨ _
    exact lookup_fat_mem m hm k0.2

set_option maxRecDepth 4000 in
/-- C3, counterexample to the claim as stated: the extracted record
(guide = null, insurer "A", amount 5) — which the noise filter
deliberately retains — produces no GuideAggregate row at all, so there
is no row per distinct (guideId, insurerKey) pair and its amount is
missing from the computed total. -/
theorem C3_aggregation_counterexample :
    df_guia recsC3x [] = [] ∧ calc_total recsC3x [] = 0 ∧
    qsum (recsC3x.map (fun r => r.valor)) = 5 ∧
    ¬ ∃ row ∈ df_guia recsC3x [], row.guia = Cell.na ∧ row.conv = "A" := by
  refine ⟨by with_unfolding_all decide, by with_unfolding_all decide,
    by with_unfolding_all decide, ?_⟩
  rintro ⟨row, hrow, -⟩
  rw [show df_guia recsC3x [] = [] from by with_unfolding_all decide] at hrow
  exact absurd hrow (List.not_mem_nil row)

set_option maxRecDepth 4000 in
theorem C3_aggregation_amended_witness :
    df_guia recsC3 mapC3 =
      [⟨Cell.num 1, "A", 150, "DIRETO"⟩, ⟨Cell.num 2, "B", 200, ""⟩] ∧
    calc_total recsC3 mapC3 = 350 ∧
    resumoOf recsC3 mapC3 "DIRETO" = 150 ∧ resumoOf recsC3 mapC3 "" = 200 ∧
    calc_total recsC3 mapC3 =
      resumoOf recsC3 mapC3 "AMHPDF" + resumoOf recsC3 mapC3 "HOSPITAL" +
        resumoOf recsC3 mapC3 "DIRETO" + resumoOf recsC3 mapC3 "" := by
  refine ⟨by with_unfolding_all decide, by with_unfolding_all decide,
    by with_unfolding_all decide, by with_unfolding_all decide, ?_⟩
  exact (C3_aggregation_amended recsC3 mapC3 (by decide)).2.2.2

/-- C4 (amended): an insurer key occurring in the records and absent
from the mapping appears in the surfaced `novos` list; a key mapped to
the empty string does NOT appear in `novos` (the code only tests dict
membership), although any `df_guia` row whose key is absent or mapped to
the empty string still carries channel `""` and is therefore summed in
the unassigned (`OUTROS`) bucket. -/
theorem C4_unmapped_keys_amended (recs : List ARec) (m : List (String × String)) :
    (∀ k, k ∈ novos recs m ↔
        ((∃ r ∈ recs, r.convenioKey = k) ∧ lookupMap m k = none)) ∧
    (∀ k vv, lookupMap m k = some vv → k ∉ novos recs m) ∧
    (∀ row ∈ df_guia recs m,
        (lookupMap m row.conv = none ∨ lookupMap m row.conv = some "") →
          row.fat = "") ∧
    resumoOf recs m "" =
      qsum (((df_guia recs m).filter (fun r => r.fat == "")).map
        (fun r => r.total)) := by
  refine ⟨?_, ?_, ?_, rfl⟩
  · intro k
    unfold novos convenios_arquivo
    rw [List.mem_filter, (sortByB_perm _ _).mem_iff, List.mem_dedup]
    constructor
    · rintro ⟨hmem, hnone⟩
      rcases List.mem_map.mp hmem with ⟨r, hr, rfl⟩
      exact ⟨⟨r, hr, rfl⟩, by simpa using hnone⟩
    · rintro ⟨⟨r, hr, rfl⟩, hnone⟩
      exact ⟨List.mem_map.mpr ⟨r, hr, rfl⟩, by simp [hnone]⟩
  · intro k vv hl hmem
    unfold novos at hmem
    have := (List.mem_filter.mp hmem).2
    rw [hl] at this
    simp at this
  · intro row hrow hl
    rcases List.mem_map.mp hrow with ⟨k0, _, hrow0⟩
    rw [← hrow0]
    show (lookupMap m k0.2).getD "" = ""
    have : lookupMap m row.conv = lookupMap m k0.2 := by rw [← hrow0]
    rcases hl with h | h <;> rw [this] at h <;> simp [h]

set_option maxRecDepth 4000 in
/-- C4, counterexample to the claim as stated: the key "A" occurs in the
records and is mapped to the empty string, yet the surfaced unmapped
list `novos` is empty — keys mapped to `""` are not surfaced (the code
only tests membership in the mapping dict); its amount is nevertheless
bucketed under the unassigned channel. -/
theorem C4_unmapped_keys_counterexample :
    (∃ r ∈ recsC4, r.convenioKey = "A") ∧ lookupMap mapC4 "A" = some "" ∧
    novos recsC4 mapC4 = [] ∧ ("A" ∉ novos recsC4 mapC4) ∧
    resumoOf recsC4 mapC4 "" = 100 := by
  refine ⟨⟨recsC4.head (by with_unfolding_all decide), by with_unfolding_all decide,
    by with_unfolding_all decide⟩, by with_unfolding_all decide,
    by with_unfolding_all decide, ?_, by with_unfolding_all decide⟩
  rw [show novos recsC4 mapC4 = [] from by with_unfolding_all decide]
  exact List.not_mem_nil "A"

set_option maxRecDepth 4000 in
theorem C4_unmapped_keys_amended_witness :
    ("A" ∈ novos recsC4 []) ∧ resumoOf recsC4 [] "" = 100 := by
  refine ⟨?_, by with_unfolding_all decide⟩
  exact ((C4_unmapped_keys_amended recsC4 []).1 "A").mpr
    ⟨⟨recsC4.head (by with_unfolding_all decide), by with_unfolding_all decide,
      by with_unfolding_all decide⟩, rfl⟩

/-- C8: the Key Normalizer agrees everywhere with its spec-worded
counterpart — null input yields the empty string; otherwise the input is
trimmed, every parenthesized substring is removed together with its
parentheses and the whitespace immediately around it (stated as repeated
deletion of the leftmost such group until none remains), and every
remaining whitespace run collapses to a single space; in particular
`"BRADESCO - DIRETO(1001)"` normalizes to `"BRADESCO - DIRETO"` and
`"  A   B  "` to `"A B"`. -/
theorem C8_key_normalizer :
    (∀ x, normalize_convenio x = keyNormalizerSpec x) ∧
    normalize_convenio none = "" ∧
    normalize_convenio (some "BRADESCO - DIRETO(1001)") = "BRADESCO - DIRETO" ∧
    normalize_convenio (some "  A   B  ") = "A B" := by
  refine ⟨?_, rfl, by with_unfolding_all decide, by with_unfolding_all decide⟩
  intro x
  cases x with
  | none => rfl
  | some s =>
    show (⟨collapseWs (removeParenGroups (stripChars s.data))⟩ : String) =
      ⟨collapseWs (removeAllGroups (stripChars s.data).length (stripChars s.data))⟩
    have h := rgf_eq_rag (stripChars s.data).length (stripChars s.data)
      (stripChars s.data).length (stripChars s.data).length le_rfl le_rfl le_rfl
    rw [show removeParenGroups (stripChars s.data) =
      removeParenGroupsFuel (stripChars s.data).length (stripChars s.data) from rfl, h]

theorem C10_saved_mapping_invariant_witness :
    (("k" : String) ≠ "" ∧ ("" : String) ∈ FATURAMENTO_OPCOES) ∧
    cleanedMapping mapC10 = [("k", ""), ("a", "AMHPDF")] := by
  exact ⟨(C10_saved_mapping_invariant mapC10).1 ("k", "") (by decide), by decide⟩

end Cti
